import Mathlib

/-!
Verification of the MediTrack universal file parser
(`backend/universal_parser.py`).

The parser's data model and operations are shallowly embedded below:
pandas dataframes become `DataFrame` (a header plus rows of optional
string cells), Python dicts become association lists with Python's
update-in-place semantics (`dictUpd`), floats become exact rationals,
and the fuzzywuzzy string-similarity library is modelled by the
longest-common-subsequence ratio that `fuzz.ratio` computes.
External extraction libraries (pdfplumber / tabula / camelot / python-docx)
are modelled as parameters supplying the candidate tables they would
return, so the orchestration logic around them is embedded exactly.
-/

/- Batteries marks the `Rat` field operations `@[irreducible]` purely so
that `simp`/`whnf` do not unfold them by accident; the kernel never
consults reducibility, so restoring the default lets `decide` evaluate
the confidence arithmetic on concrete frames without changing what the
kernel checks. -/
set_option allowUnsafeReducibility true
attribute [semireducible] Rat.mul Rat.add Rat.sub Rat.inv Rat.div

set_option maxRecDepth 4000000

namespace MediTrack

/-- A table cell: `none` models a missing value (pandas `NaN`). -/
abbrev Cell := Option String

/-- An extracted candidate table: a header row of column labels plus data
rows of cells (`pandas.DataFrame`). -/
structure DataFrame where
  columns : List String
  rows : List (List Cell)
deriving DecidableEq, Repr

/-! ## Model of `fuzzywuzzy.fuzz.ratio`

`fuzz.ratio(a, b)` is `int(round(100 * 2*M / (len(a) + len(b))))` where `M`
is the number of matched characters found by the sequence matcher; on the
short header tokens involved here that is the length of a longest common
subsequence.  We compute LCS by the standard dynamic program over rows so
that the kernel can evaluate it on concrete strings. -/

/-- One step of the LCS dynamic program.  Given the row for suffixes of
`bs` against some word `as`, produce the row for `as` with `a` prepended:
entry `j` of a row is the LCS length of the current word against
`bs.drop j`. -/
def lcsStepRow (a : Char) : List Char → List Nat → List Nat
  | [], _ => [0]
  | b :: bs, r =>
    let rest := lcsStepRow a bs r.tail
    let here := if a == b then r.tail.headD 0 + 1 else max (rest.headD 0) (r.headD 0)
    here :: rest

/-- Full LCS dynamic program: `lcsRows as bs` has entry `j` equal to the
LCS length of `as` and `bs.drop j`. -/
def lcsRows : List Char → List Char → List Nat
  | [], bs => List.replicate (bs.length + 1) 0
  | a :: as, bs => lcsStepRow a bs (lcsRows as bs)

/-- Longest-common-subsequence length of two character lists. -/
def lcsLen (a b : List Char) : Nat := (lcsRows a b).headD 0

/-- Models fuzzywuzzy `fuzz.ratio`: `int(round(100 * 2*M/(len(a)+len(b))))`
with `M = lcsLen`, rounded half-up in exact arithmetic
(`(400*M + t) / (2*t)` is `round((200*M)/t)` for naturals); two empty
strings compare as 100. -/
def fuzzSim (a b : String) : Nat :=
  let t := a.length + b.length
  if t = 0 then 100 else (400 * lcsLen a.data b.data + t) / (2 * t)

/-- `leadMatch p t` : `p` is a leading segment of `t` (character lists). -/
def leadMatch : List Char → List Char → Bool
  | [], _ => true
  | _ :: _, [] => false
  | a :: as, b :: bs => a == b && leadMatch as bs

/-- `hasSub p t` : `p` occurs as a contiguous substring of `t`
(Python's `p in t` on strings). -/
def hasSub : List Char → List Char → Bool
  | p, [] => p.isEmpty
  | p, b :: ts => leadMatch p (b :: ts) || hasSub p ts

/-! ## Canonical field dictionaries (`INVENTORY_FIELD_PATTERNS`,
`USAGE_FIELD_PATTERNS`) -/

def inventoryFieldPatterns : List (String × List String) :=
  [ ("item_name",
      ["item", "name", "product", "description", "item_name", "product_name",
       "material", "supply", "equipment", "drug", "medication", "device"]),
    ("category",
      ["category", "type", "class", "group", "section", "dept", "department"]),
    ("current_stock",
      ["stock", "quantity", "qty", "current", "on_hand", "available", "count",
       "inventory", "balance", "units", "current_stock"]),
    ("min_stock_level",
      ["min", "minimum", "min_stock", "reorder_point", "low_level", "threshold"]),
    ("max_stock_level",
      ["max", "maximum", "max_stock", "capacity", "limit", "ceiling"]),
    ("cost_per_unit",
      ["cost", "price", "unit_cost", "unit_price", "value", "rate", "amount"]),
    ("supplier",
      ["supplier", "vendor", "manufacturer", "provider", "source", "company",
       "supplier_name", "vendor_name", "manufacturer_name"]),
    ("expiration_risk",
      ["expiration", "expiry", "shelf_life", "risk", "perishable", "expires"]) ]

def usageFieldPatterns : List (String × List String) :=
  [ ("item_name",
      ["item", "name", "product", "description", "material", "supply", "drug"]),
    ("quantity_used",
      ["quantity", "qty", "used", "consumed", "dispensed", "administered",
       "amount", "count", "units"]),
    ("usage_date",
      ["date", "timestamp", "time", "when", "usage_date", "dispensed_date"]),
    ("department",
      ["department", "dept", "unit", "ward", "section", "division"]),
    ("patient_id",
      ["patient", "patient_id", "id", "mrn", "record_number"]),
    ("prescription_id",
      ["prescription", "rx", "order", "prescription_id", "order_id"]) ]

/-! ## Field mapper (`_map_fields`) -/

/-- Score of one `(column, synonym)` comparison: a literal substring match
scores 100, otherwise the fuzzy similarity is used
(`if pattern in column: score = 100 else: score = fuzz.ratio(...)`). -/
def patScore (column pat : String) : Nat :=
  if hasSub pat.data column.data then 100 else fuzzSim column pat

/-- Specification device: the best score a canonical field's synonym list
can achieve against a column (maximum of `patScore` over the synonyms). -/
def fieldScore (column : String) : List String → Nat
  | [] => 0
  | p :: pl => max (patScore column p) (fieldScore column pl)

/-- Specification device: the maximum fuzzy similarity over a synonym
list, ignoring the substring rule. -/
def maxFuzz (column : String) : List String → Nat
  | [] => 0
  | p :: pl => max (fuzzSim column p) (maxFuzz column pl)

/-- Inner loop of `_map_fields` over one field's synonym list: keep the
running `(best_match, best_score)` pair, replacing it whenever a synonym
scores strictly higher and at least 70. -/
def innerBest (f column : String) : List String → (Option String × Nat) → (Option String × Nat)
  | [], b => b
  | pat :: pl, b =>
    let score := patScore column pat
    innerBest f column pl (if b.2 < score ∧ 70 ≤ score then (some f, score) else b)

/-- Outer loop of `_map_fields` over the canonical fields, skipping fields
already claimed by an earlier column (`used_fields`). -/
def bestAux (column : String) (used : List String) :
    List (String × List String) → (Option String × Nat) → (Option String × Nat)
  | [], b => b
  | fp :: pats, b =>
    bestAux column used pats (if fp.1 ∈ used then b else innerBest fp.1 column fp.2 b)

/-- The `(best_match, best_score)` pair `_map_fields` computes for one
column, starting from `(None, 0)`. -/
def bestForColumn (column : String) (pats : List (String × List String))
    (used : List String) : Option String × Nat :=
  bestAux column used pats (none, 0)

/-- Python dict assignment `d[k] = v` on an association list: replace the
value at an existing key in place, else append the new binding. -/
def dictUpd {α : Type} : List (String × α) → String → α → List (String × α)
  | [], k, v => [(k, v)]
  | p :: m, k, v => if p.1 == k then (k, v) :: m else p :: dictUpd m k v

/-- The mutable state of `_map_fields`: `mapping` (column → field),
`mapping_scores` (field → score) and `used_fields`. -/
structure MapState where
  mapping : List (String × String)
  scores : List (String × Nat)
  used : List String
deriving DecidableEq, Repr

/-- Processing of a single column by `_map_fields`: compute the best
still-unused field and, if one qualified, record the assignment. -/
def mapStep (pats : List (String × List String)) (st : MapState) (column : String) :
    MapState :=
  match bestForColumn column pats st.used with
  | (some f, s) =>
    if f ∈ st.used then st
    else ⟨dictUpd st.mapping column f, dictUpd st.scores f s, st.used ++ [f]⟩
  | (none, _) => st

/-- `_map_fields`' loop over the columns in their original order. -/
def runMap (pats : List (String × List String)) (cols : List String)
    (st : MapState) : MapState :=
  cols.foldl (mapStep pats) st

/-- `_map_fields`: map detected columns to standard field names, returning
the mapping and the per-field match scores. -/
def mapFields (cols : List String) (pats : List (String × List String)) :
    List (String × String) × List (String × Nat) :=
  let st := runMap pats cols ⟨[], [], []⟩
  (st.mapping, st.scores)

/-! ## Column cleaning and de-duplication (`_process_dataframe`, lines 369–373) -/

/-- Python `str.strip()` on a character list: drop surrounding
whitespace. -/
def trimChars (l : List Char) : List Char :=
  ((l.dropWhile Char.isWhitespace).reverse.dropWhile Char.isWhitespace).reverse

/-- Column-name cleaning: `str(col).strip().lower().replace(' ', '_')`,
computed on the character list (strip surrounding whitespace, lower-case,
then turn each space into an underscore). -/
def cleanName (s : String) : String :=
  ⟨(trimChars s.data).map (fun ch =>
    let ch := ch.toLower
    if ch = ' ' then '_' else ch)⟩

/-- `pandas.Index.duplicated()`: mark every occurrence of a name after its
first one.  `seen` accumulates the names already passed. -/
def dupMask : List String → List String → List Bool
  | _, [] => []
  | seen, c :: cs => seen.contains c :: dupMask (c :: seen) cs

/-- Drop the entries of a list marked `true` by a mask
(`df.loc[:, ~df.columns.duplicated()]` applied to one axis). -/
def applyMask {α : Type} : List Bool → List α → List α
  | true :: bs, _ :: xs => applyMask bs xs
  | false :: bs, x :: xs => x :: applyMask bs xs
  | _, _ => []

/-- Keep only the first occurrence of each (raw) column name. -/
def dedupeFirst (cols : List String) : List String :=
  applyMask (dupMask [] cols) cols

/-- The column labels `_process_dataframe` works with: duplicates removed
on the raw names first, then each survivor cleaned. -/
def processedColumns (cols : List String) : List String :=
  (dedupeFirst cols).map cleanName

/-- The data rows `_process_dataframe` works with: all-missing rows
dropped (`dropna(how='all')`), then the cells of dropped duplicate
columns removed. -/
def processedRows (df : DataFrame) : List (List Cell) :=
  (df.rows.filter (fun r => ¬r.all (fun c => c.isNone))).map
    (applyMask (dupMask [] df.columns))

/-- The cleaned frame `_process_dataframe` maps and scores. -/
def processedFrame (df : DataFrame) : DataFrame :=
  ⟨processedColumns df.columns, processedRows df⟩

/-! ## Confidence scorer (`_calculate_confidence`) -/

/-- The fixed per-field importance weights. -/
def fieldImportance : List (String × ℚ) :=
  [ ("item_name", 40), ("current_stock", 25), ("cost_per_unit", 15),
    ("category", 8), ("min_stock_level", 5), ("max_stock_level", 3),
    ("supplier", 3), ("expiration_risk", 1) ]

/-- `d.get(k, default)` on an association list. -/
def lookupD {α : Type} (m : List (String × α)) (k : String) (d : α) : α :=
  match m.find? (fun p => p.1 == k) with
  | some p => p.2
  | none => d

/-- `df.empty`: the frame has no cells along some axis. -/
def dfEmpty (df : DataFrame) : Bool :=
  df.rows.isEmpty || df.columns.isEmpty

/-- The cells of the column named `f` (first column of that name), as
`df[f]` would see them; absent cells read as missing. -/
def colCells (df : DataFrame) (f : String) : List Cell :=
  match df.columns.findIdx? (fun c => c == f) with
  | some i => df.rows.map (fun r => r.getD i none)
  | none => []

/-- `df[f].isna().sum() / len(df)` as an exact rational. -/
def nullFrac (df : DataFrame) (f : String) : ℚ :=
  (((colCells df f).filter (fun c => c.isNone)).length : ℚ) / (df.rows.length : ℚ)

/-- Modelled numeric-literal check for `pd.to_numeric(..., errors='coerce')`
followed by `.notna()`: an optionally signed decimal literal. -/
def mantissaLit (l : List Char) : Bool :=
  let digits := l.takeWhile Char.isDigit
  match l.dropWhile Char.isDigit with
  | [] => !digits.isEmpty
  | '.' :: rest => (!digits.isEmpty || !rest.isEmpty) && rest.all Char.isDigit
  | _ => false

/-- A cell that `pd.to_numeric` coerces to a valid (non-NaN) number. -/
def cellNumeric : Cell → Bool
  | none => false
  | some s =>
    match trimChars s.data with
    | '+' :: t => mantissaLit t
    | '-' :: t => mantissaLit t
    | t => mantissaLit t

/-- `df[field]` for a critical field whose (cleaned) label occurs more
than once in the frame: pandas then returns a two-column frame instead of
a Series, `data_completeness` becomes a Series, and evaluating its truth
value raises `ValueError` (at the comparison guarding the 95% floor, or
at the final `min(...)`). -/
def criticalSeries (df : DataFrame) : Bool :=
  ["item_name", "current_stock"].any
    (fun f => 2 ≤ (df.columns.filter (fun c => c == f)).length)

/-- The scalar value of `_calculate_confidence` past the mandatory-field
gate, on the inputs where the computation does not raise.
The `pats` argument is received (as in the source) but not consulted. -/
def confidenceValue (mapping : List (String × String)) (mappingScores : List (String × Nat))
    (pats : List (String × List String)) (df : DataFrame) : ℚ :=
  let mappedFields := dedupeFirst (mapping.map Prod.snd)
  let totalPossibleScore : ℚ := (fieldImportance.map Prod.snd).sum
    let achievedScore : ℚ :=
      (mappedFields.map (fun f =>
        let w := lookupD fieldImportance f 0
        let q : ℚ := ((lookupD mappingScores f 85 : Nat) : ℚ)
        w * ((q - 70) / 30 * (15 / 100) + 85 / 100))).sum
    let baseConfidence := achievedScore / totalPossibleScore
    let dataCompleteness : ℚ :=
      if dfEmpty df then 1
      else
        ["item_name", "current_stock"].foldl
          (fun acc f =>
            if df.columns.contains f then acc * (1 - nullFrac df f * (1 / 2)) else acc)
          1
    let avgMappingScore : ℚ :=
      if mappingScores.isEmpty then 80
      else ((mappingScores.map (fun p => ((p.2 : Nat) : ℚ))).sum) / (mappingScores.length : ℚ)
    let numericFields := ["current_stock", "min_stock_level", "max_stock_level", "cost_per_unit"]
    let numericMapped :=
      numericFields.filter (fun f => mappedFields.contains f && df.columns.contains f)
    let validNumeric :=
      (numericMapped.filter (fun f => (colCells df f).all cellNumeric)).length
    let qualityBonus : ℚ :=
      (if mappedFields.length = fieldImportance.length then 8 / 100 else 0)
        + (if 95 ≤ avgMappingScore then 5 / 100 else 0)
        + (if 6 ≤ mappedFields.length then 3 / 100 else 0)
        + (if ¬numericMapped.isEmpty ∧ validNumeric = numericMapped.length then 2 / 100 else 0)
    let finalConfidence := (baseConfidence + qualityBonus) * dataCompleteness
    let finalConfidence :=
      if 7 ≤ mappedFields.length ∧ 90 ≤ avgMappingScore ∧ (95 / 100 : ℚ) ≤ dataCompleteness
      then max finalConfidence (95 / 100) else finalConfidence
    min (finalConfidence * 100) 100

/-- `_calculate_confidence`: the calibrated 0–100 confidence score, or the
exception the computation raises.  The hard gate (`return 0.0` when
`item_name` is unmapped) fires before anything else is consulted.  Past
the gate, when the frame is non-empty and a critical column label is
duplicated, `df[field]` in the completeness loop turns
`data_completeness` into a pandas Series and the function is bound to
raise `ValueError` before returning (modelled as the `Except.error`
branch); otherwise the scalar computation `confidenceValue` runs to
completion. -/
def calcConfidence (mapping : List (String × String)) (mappingScores : List (String × Nat))
    (pats : List (String × List String)) (df : DataFrame) : Except String ℚ :=
  let mappedFields := dedupeFirst (mapping.map Prod.snd)
  if "item_name" ∈ mappedFields then
    if !dfEmpty df && criticalSeries df then
      Except.error
        "The truth value of a Series is ambiguous. Use a.empty, a.bool(), a.item(), a.any() or a.all()."
    else Except.ok (confidenceValue mapping mappingScores pats df)
  else Except.ok 0

/-! ## Accuracy assessor (`_generate_accuracy_assessment`,
`_generate_recommendations`) -/

/-- The textual attributes of one confidence band. -/
structure Band where
  level : String
  description : String
  interpretation : String
  color : String
  needsReview : Bool
  reviewReason : Option String
deriving DecidableEq, Repr

/-- The if/elif chain assigning the confidence band. -/
def confidenceBand (confidence : ℚ) : Band :=
  if 95 ≤ confidence then
    ⟨"excellent", "Excellent data quality",
      "Data parsed with very high accuracy. Field mappings are reliable and data appears complete.",
      "green", false, none⟩
  else if 85 ≤ confidence then
    ⟨"good", "Good data quality",
      "Data parsed successfully with minor uncertainties. Most field mappings are reliable.",
      "blue", false, none⟩
  else if 70 ≤ confidence then
    ⟨"fair", "Fair data quality",
      "Data parsed with some uncertainties. Recommend reviewing field mappings for accuracy.",
      "yellow", true, some "Medium confidence score indicates potential mapping issues"⟩
  else
    ⟨"poor", "Poor data quality",
      "Data parsing encountered significant issues. Manual review strongly recommended.",
      "red", true, some "Low confidence score indicates likely mapping errors"⟩

/-- Python `round(q, 1)`, modelled as round-half-up to one decimal. -/
def roundTenth (q : ℚ) : ℚ := ((⌊q * 10 + 1 / 2⌋ : ℤ) : ℚ) / 10

/-- Render a non-negative rational as a one-decimal string (`f"{x:.1f}"`). -/
def fmtTenth (q : ℚ) : String :=
  let n : ℤ := ⌊q * 10 + 1 / 2⌋
  let ip := n / 10
  let fr := n % 10
  s!"{ip}.{fr}"

/-- `_generate_recommendations`: actionable recommendations.  The `issues`
argument is received (as in the source) but not consulted. -/
def generateRecommendations (confidence : ℚ) (mappedFields : List String)
    (issues : List String) : List String :=
  let recs : List String :=
    (if confidence < 70 then
      ["Manually verify all field mappings before importing",
       "Consider reformatting the source file with clearer column headers"] else [])
    ++ (if confidence < 85 then
      ["Review the field mapping results below",
       "Spot-check a few records to ensure data accuracy"] else [])
    ++ (if mappedFields.length < 6 then
      ["Consider adding more columns to improve data completeness"] else [])
    ++ (if ¬mappedFields.contains "current_stock" then
      ["Ensure stock quantity information is included"] else [])
    ++ (if ¬mappedFields.contains "cost_per_unit" then
      ["Include unit cost information if available"] else [])
  if recs.isEmpty then ["Data looks good! Ready to import."] else recs

/-- The structured accuracy assessment. -/
structure Assessment where
  confidenceLevel : String
  description : String
  interpretation : String
  color : String
  needsHumanReview : Bool
  reviewReason : Option String
  labelingAccuracyEstimate : ℚ
  criticalFieldsMapped : String
  issues : List String
  recommendations : List String
deriving DecidableEq, Repr

/-- `_generate_accuracy_assessment`: band, accuracy estimates, issues and
recommendations. -/
def generateAccuracyAssessment (confidence : ℚ) (fieldMapping : List (String × String))
    (mappingScores : List (String × Nat)) (df : DataFrame) : Assessment :=
  let band := confidenceBand confidence
  let mappedFields := dedupeFirst (fieldMapping.map Prod.snd)
  let criticalFields := ["item_name", "current_stock", "cost_per_unit"]
  let criticalMapped := (criticalFields.filter (fun f => mappedFields.contains f)).length
  let criticalTotal := criticalFields.length
  let labelingAccuracy : ℚ :=
    if mappingScores.isEmpty then 75
    else
      min ((((mappingScores.map (fun p => ((p.2 : Nat) : ℚ))).sum) / (mappingScores.length : ℚ))
        * (102 / 100)) 100
  let nullPercentage : ℚ :=
    ((df.rows.map (fun r => (r.filter (fun c => c.isNone)).length)).sum : ℚ)
      / ((df.rows.length : ℚ) * (df.columns.length : ℚ)) * 100
  let importantTokens := ["item", "name", "stock", "quantity", "price", "cost"]
  let unmappedImportant :=
    (df.columns.filter (fun c =>
      importantTokens.any (fun p => hasSub p.data c.toLower.data)
        && ¬(fieldMapping.map Prod.fst).contains c)).length
  let issues : List String :=
    (if confidence < 85 then ["Some field mappings may be incorrect"] else [])
    ++ (if mappedFields.length < 5 then ["Limited field coverage detected"] else [])
    ++ (if ¬dfEmpty df ∧ 10 < nullPercentage then
          let pctStr := fmtTenth nullPercentage
          [s!"High percentage of missing data ({pctStr}%)"] else [])
    ++ (if 0 < unmappedImportant then
          [s!"{unmappedImportant} potentially important columns not mapped"] else [])
  { confidenceLevel := band.level
    description := band.description
    interpretation := band.interpretation
    color := band.color
    needsHumanReview := band.needsReview
    reviewReason := band.reviewReason
    labelingAccuracyEstimate := roundTenth labelingAccuracy
    criticalFieldsMapped := s!"{criticalMapped}/{criticalTotal}"
    issues := issues
    recommendations := generateRecommendations confidence mappedFields issues }

/-! ## Result contract and `_process_dataframe` -/

structure Metadata where
  source : String
  totalRecords : Nat
  columnsMapped : Nat
  confidence : ℚ
  fieldMapping : List (String × String)
  originalColumns : List String
  accuracyAssessment : Assessment
deriving DecidableEq, Repr

structure ParseResult where
  success : Bool
  error : Option String
  data : Option (List (List (String × Cell)))
  metadata : Option Metadata
deriving DecidableEq, Repr

/-- A controlled failure result (`success: False`, empty metadata). -/
def mkFailure (msg : String) : ParseResult := ⟨false, some msg, none, none⟩

/-- Rename the mapped columns to their canonical names
(`mapped_df.rename` applied per mapping entry, guarded by the pattern
dictionary membership check). -/
def renameColumns (cols : List String) (mapping : List (String × String))
    (pats : List (String × List String)) : List String :=
  mapping.foldl
    (fun cs p =>
      if pats.any (fun fp => fp.1 == p.2) then
        cs.map (fun c => if c == p.1 then p.2 else c)
      else cs)
    cols

/-- Select the pattern dictionary by declared data type. -/
def patternsFor (dataType : String) : List (String × List String) :=
  if dataType = "inventory" then inventoryFieldPatterns else usageFieldPatterns

/-- The successful tail of `_process_dataframe` (lines 384–405): rename
the mapped columns, build the records and the accuracy assessment, and
assemble the metadata around the confidence the scorer returned.  Rows
are modelled as dictionaries via association lists in `data`. -/
def processOk (df0 : DataFrame) (dataType : String) (source : String)
    (confidence : ℚ) : ParseResult :=
  let cleanedCols := processedColumns df0.columns
  let rows2 := processedRows df0
  let df : DataFrame := processedFrame df0
  let pats := patternsFor dataType
  let fm := mapFields cleanedCols pats
  let fieldMapping := fm.1
  let mappingScores := fm.2
  let renamed := renameColumns cleanedCols fieldMapping pats
  let records := rows2.map (fun r => renamed.zip r)
  let accuracy := generateAccuracyAssessment confidence fieldMapping mappingScores df
  { success := true
    error := none
    data := some records
    metadata := some
      { source := source
        totalRecords := rows2.length
        columnsMapped := fieldMapping.length
        confidence := confidence
        fieldMapping := fieldMapping
        originalColumns := cleanedCols
        accuracyAssessment := accuracy } }

/-- `_process_dataframe`: drop all-missing rows, de-duplicate raw column
names, clean the survivors, map fields, score confidence, rename, and
assemble the successful result with its metadata.  The body runs inside
`try:`; the fallible step is `_calculate_confidence`, whose `ValueError`
on duplicated critical column labels is converted by the `except` at
lines 407–413 into a controlled failure with empty metadata. -/
def processDataframe (df0 : DataFrame) (dataType : String) (source : String) :
    ParseResult :=
  let pats := patternsFor dataType
  let fm := mapFields (processedColumns df0.columns) pats
  match calcConfidence fm.1 fm.2 pats (processedFrame df0) with
  | Except.error e => mkFailure ("Failed to process extracted data: " ++ e)
  | Except.ok confidence => processOk df0 dataType source confidence

/-! ## Orchestrators for page-structured and word-processor documents
(`_parse_pdf`, `_parse_docx`)

The third-party extraction calls are modelled as `Except` parameters: an
`Except.error` is the library raising inside the per-method `try`; an
`Except.ok` carries the candidate tables the library produced. -/

/-- `metadata.get('confidence', 0)` used as the selection key. -/
def confValue (r : ParseResult) : ℚ :=
  match r.metadata with
  | some m => m.confidence
  | none => 0

/-- `max(results, key=...)`: Python's `max` keeps the first of several
maximal elements, replacing the running best only on a strictly larger
key. -/
def pickBest (r : ParseResult) (rs : List ParseResult) : ParseResult :=
  rs.foldl (fun b x => if confValue b < confValue x then x else b) r

/-- Method 1 (pdfplumber): keep per-page tables having a data row, and if
any survive, concatenate them into a single candidate and run the full
pipeline; keep the result when it succeeds. -/
def concatDfs (dfs : List DataFrame) : DataFrame :=
  let cols := dedupeFirst (dfs.flatMap (fun d => d.columns))
  let rows := dfs.flatMap (fun d =>
    d.rows.map (fun r =>
      cols.map (fun c =>
        match d.columns.findIdx? (fun c' => c' == c) with
        | some i => r.getD i none
        | none => none)))
  ⟨cols, rows⟩

def plumberCandidates (tables : List DataFrame) (dataType : String) : List ParseResult :=
  let ts := tables.filter (fun t => 0 < t.rows.length)
  if ts.isEmpty then []
  else
    let r := processDataframe (concatDfs ts) dataType "PDF (pdfplumber)"
    if r.success then [r] else []

/-- Method 2 (tabula): run the pipeline on every non-empty table. -/
def tabulaCandidates (tables : List DataFrame) (dataType : String) : List ParseResult :=
  ((tables.filter (fun t => 0 < t.rows.length)).map
    (fun t => processDataframe t dataType "PDF (tabula)")).filter (fun r => r.success)

/-- Method 3 (camelot): run the pipeline on every table with more than one
row (camelot grids are modelled directly as dataframes). -/
def camelotCandidates (tables : List DataFrame) (dataType : String) : List ParseResult :=
  ((tables.filter (fun t => 1 < t.rows.length)).map
    (fun t => processDataframe t dataType "PDF (camelot)")).filter (fun r => r.success)

/-- One extraction method's contribution: a raised exception is swallowed
(`except: pass`) so the method contributes nothing. -/
def methodResults (f : List DataFrame → List ParseResult) :
    Except String (List DataFrame) → List ParseResult
  | Except.error _ => []
  | Except.ok ts => f ts

/-- All successful per-method results of `_parse_pdf`, in method order. -/
def pdfResults (m1 m2 m3 : Except String (List DataFrame)) (dataType : String) :
    List ParseResult :=
  methodResults (fun ts => plumberCandidates ts dataType) m1
    ++ methodResults (fun ts => tabulaCandidates ts dataType) m2
    ++ methodResults (fun ts => camelotCandidates ts dataType) m3

/-- `_parse_pdf`: fall out early when the PDF libraries are unavailable,
otherwise try the three methods independently and return the successful
result with the highest confidence, or a controlled failure. -/
def parsePdf (pdfAvailable : Bool) (m1 m2 m3 : Except String (List DataFrame))
    (dataType : String) : ParseResult :=
  if pdfAvailable then
    match pdfResults m1 m2 m3 dataType with
    | [] => mkFailure "No tables could be extracted from PDF"
    | r :: rs => pickBest r rs
  else mkFailure "PDF parsing libraries not available"

/-- `_parse_docx`: fall out early when python-docx is unavailable,
otherwise process the first table having a data row, or fail
controlledly. -/
def parseDocx (docxAvailable : Bool) (tables : List DataFrame) (dataType : String) :
    ParseResult :=
  if docxAvailable then
    match tables.find? (fun t => 0 < t.rows.length) with
    | some t => processDataframe t dataType "Word Document"
    | none => mkFailure "No tables found in Word document"
  else mkFailure "Word document parsing not available"

/-! ## Verification devices and concrete sample frames -/

/-- Bound predicate for an LCS row: entry `j` is at most `k - j`. -/
def rowBnd : List Nat → Nat → Prop
  | [], _ => True
  | v :: r, k => v ≤ k ∧ rowBnd r (k - 1)

/-- The canonical inventory header in dictionary order. -/
def invHeader : List String :=
  ["item_name", "category", "current_stock", "min_stock_level",
   "max_stock_level", "cost_per_unit", "supplier", "expiration_risk"]

/-- The identity mapping on the canonical inventory header. -/
def invIdMapping : List (String × String) := invHeader.map (fun f => (f, f))

/-- All-100 match scores on the canonical inventory header. -/
def invFullScores : List (String × Nat) := invHeader.map (fun f => (f, 100))

/-- Sample frame whose columns match no synonym of `item_name`. -/
def dfNoItem : DataFrame := ⟨["category", "cost"], [[some "PPE", some "2.5"]]⟩

/-- Sample frame with two raw column names that clean to the same name. -/
def dfDupClean : DataFrame := ⟨["Item Name", "item_name"], [[some "Mask", some "Gauze"]]⟩

/-- Sample frame with a single raw column name that needs cleaning. -/
def dfSingle : DataFrame := ⟨["Item Name"], [[some "Mask"]]⟩

/-- Sample frame with the canonical header and complete critical data. -/
def dfRoundTrip : DataFrame :=
  ⟨invHeader,
   [[some "N95 Masks", some "PPE", some "500", some "10", some "1000",
     some "2.5", some "Acme", some "low"]]⟩

/-- Sample frame with the canonical header but a missing `current_stock`
value. -/
def dfRoundTripNull : DataFrame :=
  ⟨invHeader,
   [[some "Gauze", some "wound", none, some "5", some "50",
     some "1.25", some "Acme", some "low"]]⟩

/-- Sample single-table extraction for the PDF orchestration witness. -/
def dfPdfSample : DataFrame := ⟨["item", "qty"], [[some "Mask", some "5"]]⟩

/-- The conditions under which `_map_fields` assigns field `F` with score
`s` to a column: the score is the field's best synonym score, it passes
the 70 threshold, the field is unclaimed, and no other unclaimed field of
the dictionary scores higher on this column. -/
def assignedSpec (column : String) (pats : List (String × List String))
    (used : List String) (F : String) (s : Nat) : Prop :=
  (∃ pl, (F, pl) ∈ pats ∧ s = fieldScore column pl) ∧ 70 ≤ s ∧ s ≤ 100 ∧ F ∉ used ∧
    ∀ G ql, (G, ql) ∈ pats → G ∉ used → fieldScore column ql ≤ s

/-- The empty initial state of `_map_fields`. -/
def initState : MapState := ⟨[], [], []⟩

/-- Invariant: the keys of `mapping_scores` are exactly `used_fields`, in
claim order. -/
def scoresKeyed (st : MapState) : Prop := st.scores.map Prod.fst = st.used

/-- Invariant: every recorded match score lies in `[70, 100]`. -/
def scoresBounded (st : MapState) : Prop := ∀ p ∈ st.scores, 70 ≤ p.2 ∧ p.2 ≤ 100

/-- Invariant: the mapping's target fields are pairwise distinct and all
claimed. -/
def valuesOk (st : MapState) : Prop :=
  (st.mapping.map Prod.snd).Nodup ∧ ∀ x ∈ st.mapping.map Prod.snd, x ∈ st.used

section Lemmas

/-! ### Bounds for the LCS dynamic program and the fuzzy ratio -/

theorem headD_le_of (l : List Nat) (n : Nat) (h : ∀ v ∈ l, v ≤ n) : l.headD 0 ≤ n := by
  cases l with
  | nil => simp
  | cons x xs => simpa using h x (by simp)

theorem tail_forall_le (l : List Nat) (n : Nat) (h : ∀ v ∈ l, v ≤ n) :
    ∀ v ∈ l.tail, v ≤ n := by
  cases l with
  | nil => simp
  | cons x xs => exact fun v hv => h v (List.mem_cons_of_mem x hv)

theorem lcsStepRow_le (a : Char) : ∀ (bs : List Char) (r : List Nat) (n : Nat),
    (∀ v ∈ r, v ≤ n) → ∀ v ∈ lcsStepRow a bs r, v ≤ n + 1 := by
  intro bs
  induction bs with
  | nil =>
    intro r n _ v hv
    simp only [lcsStepRow, List.mem_singleton] at hv
    omega
  | cons b bs ih =>
    intro r n h v hv
    have htail := tail_forall_le r n h
    have hrest := ih r.tail n htail
    simp only [lcsStepRow, List.mem_cons] at hv
    rcases hv with hv | hv
    · subst hv
      split
      · have := headD_le_of r.tail n htail
        omega
      · have h1 := headD_le_of _ _ hrest
        have h2 := headD_le_of r n h
        omega
    · exact hrest v hv

theorem lcsRows_le : ∀ (as bs : List Char), ∀ v ∈ lcsRows as bs, v ≤ as.length := by
  intro as
  induction as with
  | nil =>
    intro bs v hv
    simp only [lcsRows] at hv
    simp [List.eq_of_mem_replicate hv]
  | cons a as ih =>
    intro bs v hv
    simpa using lcsStepRow_le a bs (lcsRows as bs) as.length (ih bs) v hv

theorem rowBnd_replicate : ∀ (m k : Nat), rowBnd (List.replicate m 0) k := by
  intro m
  induction m with
  | zero => intro k; simp [rowBnd]
  | succ m ih => intro k; simpa [rowBnd] using ih (k - 1)

theorem rowBnd_headD {l : List Nat} {k : Nat} (h : rowBnd l k) : l.headD 0 ≤ k := by
  cases l with
  | nil => simp
  | cons x xs => simpa using h.1

theorem rowBnd_tail {l : List Nat} {k : Nat} (h : rowBnd l k) : rowBnd l.tail (k - 1) := by
  cases l with
  | nil => trivial
  | cons x xs => exact h.2

theorem lcsStepRow_bnd (a : Char) : ∀ (bs : List Char) (r : List Nat),
    rowBnd r bs.length → rowBnd (lcsStepRow a bs r) bs.length := by
  intro bs
  induction bs with
  | nil =>
    intro r _
    simp [lcsStepRow, rowBnd]
  | cons b bs ih =>
    intro r h
    have htail : rowBnd r.tail bs.length := by
      simpa using rowBnd_tail h
    have hrest := ih r.tail htail
    refine ⟨?_, by simpa using hrest⟩
    split
    · have := rowBnd_headD htail
      simp only [List.length_cons]
      omega
    · have h1 := rowBnd_headD hrest
      have h2 := rowBnd_headD h
      simp only [List.length_cons] at h2 ⊢
      omega

theorem lcsRows_bnd : ∀ (as bs : List Char), rowBnd (lcsRows as bs) bs.length := by
  intro as
  induction as with
  | nil => intro bs; simpa [lcsRows] using rowBnd_replicate (bs.length + 1) bs.length
  | cons a as ih => intro bs; exact lcsStepRow_bnd a bs (lcsRows as bs) (ih bs)

theorem lcsLen_le_left (a b : List Char) : lcsLen a b ≤ a.length := by
  unfold lcsLen
  exact headD_le_of _ _ (lcsRows_le a b)

theorem lcsLen_le_right (a b : List Char) : lcsLen a b ≤ b.length := by
  unfold lcsLen
  exact rowBnd_headD (lcsRows_bnd a b)

theorem fuzzSim_le_100 (a b : String) : fuzzSim a b ≤ 100 := by
  simp only [fuzzSim]
  split
  · exact le_refl 100
  · rename_i ht
    have h1 : lcsLen a.data b.data ≤ a.length := lcsLen_le_left a.data b.data
    have h2 : lcsLen a.data b.data ≤ b.length := lcsLen_le_right a.data b.data
    have hpos : 0 < 2 * (a.length + b.length) := by omega
    have hlt : 400 * lcsLen a.data b.data + (a.length + b.length)
        < 101 * (2 * (a.length + b.length)) := by omega
    have := (Nat.div_lt_iff_lt_mul hpos).mpr (by omega :
      400 * lcsLen a.data b.data + (a.length + b.length) < 101 * (2 * (a.length + b.length)))
    omega

theorem patScore_le_100 (c p : String) : patScore c p ≤ 100 := by
  unfold patScore
  split
  · exact le_refl 100
  · exact fuzzSim_le_100 c p

theorem fieldScore_le_100 (c : String) : ∀ pl, fieldScore c pl ≤ 100 := by
  intro pl
  induction pl with
  | nil => simp [fieldScore]
  | cons p pl ih =>
    simp only [fieldScore]
    exact max_le (patScore_le_100 c p) ih

/-! ### Characterization of the `_map_fields` loops -/

theorem step_max (f : String) (o : Option String) (n s F : Nat) :
    (if (if n < s ∧ 70 ≤ s then ((some f : Option String), s) else (o, n)).2 < F ∧ 70 ≤ F
      then ((some f : Option String), F)
      else if n < s ∧ 70 ≤ s then (some f, s) else (o, n))
    = if n < max s F ∧ 70 ≤ max s F then (some f, max s F) else (o, n) := by
  split_ifs <;> simp_all [Prod.ext_iff] <;> omega

theorem innerBest_spec (f c : String) : ∀ (pl : List String) (b : Option String × Nat),
    innerBest f c pl b =
      if b.2 < fieldScore c pl ∧ 70 ≤ fieldScore c pl
      then (some f, fieldScore c pl) else b := by
  intro pl
  induction pl with
  | nil =>
    intro b
    simp [innerBest, fieldScore]
  | cons p pl ih =>
    intro b
    rcases b with ⟨o, n⟩
    simp only [innerBest, fieldScore]
    rw [ih]
    exact step_max f o n (patScore c p) (fieldScore c pl)

theorem innerBest_snd_ge (f c : String) (pl : List String) (b : Option String × Nat) :
    b.2 ≤ (innerBest f c pl b).2 := by
  rw [innerBest_spec]
  split_ifs with h
  · exact Nat.le_of_lt h.1
  · exact le_refl _

theorem bestAux_mono (c : String) (used : List String) :
    ∀ (pats : List (String × List String)) (b : Option String × Nat),
      b.2 ≤ (bestAux c used pats b).2 := by
  intro pats
  induction pats with
  | nil => intro b; simp [bestAux]
  | cons fp pats ih =>
    intro b
    simp only [bestAux]
    split
    · exact ih b
    · exact le_trans (innerBest_snd_ge fp.1 c fp.2 b) (ih _)

theorem bestAux_dom (c : String) (used : List String) :
    ∀ (pats : List (String × List String)) (b : Option String × Nat) (G : String)
      (ql : List String), (G, ql) ∈ pats → G ∉ used →
      fieldScore c ql ≤ (bestAux c used pats b).2 ∨ fieldScore c ql < 70 := by
  intro pats
  induction pats with
  | nil => intro b G ql h; simp at h
  | cons fp pats ih =>
    intro b G ql hmem hG
    rcases fp with ⟨f1, pl1⟩
    simp only [bestAux]
    rcases List.mem_cons.mp hmem with heq | hmem
    · obtain ⟨rfl, rfl⟩ : G = f1 ∧ ql = pl1 := by simpa [Prod.ext_iff] using heq
      split
      · rename_i h
        exact absurd h hG
      · rw [innerBest_spec]
        by_cases h70 : 70 ≤ fieldScore c ql
        · left
          by_cases hlt : b.2 < fieldScore c ql
          · rw [if_pos ⟨hlt, h70⟩]
            simpa using bestAux_mono c used pats (some G, fieldScore c ql)
          · rw [if_neg (fun hc => hlt hc.1)]
            exact le_trans (Nat.le_of_not_lt hlt) (bestAux_mono c used pats b)
        · right
          omega
    · split
      · exact ih b G ql hmem hG
      · exact ih _ G ql hmem hG

theorem bestAux_origin (c : String) (used : List String) :
    ∀ (pats : List (String × List String)) (b : Option String × Nat),
      bestAux c used pats b = b ∨
        ∃ F pl, (F, pl) ∈ pats ∧ F ∉ used ∧
          bestAux c used pats b = (some F, fieldScore c pl) ∧
          70 ≤ fieldScore c pl ∧ b.2 < fieldScore c pl := by
  intro pats
  induction pats with
  | nil => intro b; exact Or.inl rfl
  | cons fp pats ih =>
    intro b
    rcases fp with ⟨f1, pl1⟩
    simp only [bestAux]
    split
    · rcases ih b with h | ⟨F, pl, hmem, hF, heq, h70, hlt⟩
      · exact Or.inl h
      · exact Or.inr ⟨F, pl, List.mem_cons_of_mem _ hmem, hF, heq, h70, hlt⟩
    · rename_i hf1
      rw [innerBest_spec]
      by_cases hcond : b.2 < fieldScore c pl1 ∧ 70 ≤ fieldScore c pl1
      · rw [if_pos hcond]
        rcases ih (some f1, fieldScore c pl1) with h | ⟨F, pl, hmem, hF, heq, h70, hlt⟩
        · exact Or.inr ⟨f1, pl1, List.mem_cons_self _ _, hf1, h, hcond.2, hcond.1⟩
        · refine Or.inr ⟨F, pl, List.mem_cons_of_mem _ hmem, hF, heq, h70, ?_⟩
          simp only at hlt
          omega
      · rw [if_neg hcond]
        rcases ih b with h | ⟨F, pl, hmem, hF, heq, h70, hlt⟩
        · exact Or.inl h
        · exact Or.inr ⟨F, pl, List.mem_cons_of_mem _ hmem, hF, heq, h70, hlt⟩

/-- If `_map_fields` picks `(best_match, best_score) = (some F, s)` for a
column, then the assignment conditions of the spec hold. -/
theorem bestForColumn_assigned (c : String) (pats : List (String × List String))
    (used : List String) (F : String) (s : Nat)
    (h : bestForColumn c pats used = (some F, s)) : assignedSpec c pats used F s := by
  rcases bestAux_origin c used pats (none, 0) with h0 | ⟨F', pl, hmem, hF', heq, h70, _⟩
  · unfold bestForColumn at h
    rw [h0] at h
    exact absurd h (by simp)
  · unfold bestForColumn at h
    rw [heq] at h
    obtain ⟨rfl, rfl⟩ : F' = F ∧ fieldScore c pl = s := by
      simpa [Prod.ext_iff] using h
    refine ⟨⟨pl, hmem, rfl⟩, h70, fieldScore_le_100 c pl, hF', ?_⟩
    intro G ql hG hGu
    rcases bestAux_dom c used pats (none, 0) G ql hG hGu with hle | hlt
    · rw [heq] at hle
      simpa using hle
    · omega

/-! ### The substring rule and the fuzzy fallback for a field's score -/

theorem fieldScore_of_sub (c : String) (pl : List String)
    (h : ∃ p ∈ pl, hasSub p.data c.data = true) : fieldScore c pl = 100 := by
  induction pl with
  | nil => simp at h
  | cons p pl ih =>
    rcases h with ⟨q, hq, hsub⟩
    rcases List.mem_cons.mp hq with rfl | hq
    · simp only [fieldScore, patScore, hsub, if_true]
      exact Nat.max_eq_left (fieldScore_le_100 c pl)
    · simp only [fieldScore, ih ⟨q, hq, hsub⟩]
      exact Nat.max_eq_right (patScore_le_100 c p)

theorem fieldScore_of_no_sub (c : String) (pl : List String)
    (h : ∀ p ∈ pl, hasSub p.data c.data = false) : fieldScore c pl = maxFuzz c pl := by
  induction pl with
  | nil => rfl
  | cons p pl ih =>
    have hp : patScore c p = fuzzSim c p := by
      simp [patScore, h p (List.mem_cons_self p pl)]
    simp only [fieldScore, maxFuzz, hp,
      ih (fun q hq => h q (List.mem_cons_of_mem p hq))]

/-! ### Python dict update on association lists -/

theorem dictUpd_of_fresh {α : Type} : ∀ (m : List (String × α)) (k : String) (v : α),
    k ∉ m.map Prod.fst → dictUpd m k v = m ++ [(k, v)] := by
  intro m
  induction m with
  | nil => intro k v _; rfl
  | cons p m ih =>
    intro k v hk
    simp only [List.map_cons, List.mem_cons] at hk
    push_neg at hk
    have : (p.1 == k) = false := beq_eq_false_iff_ne.mpr (fun h => hk.1 h.symm)
    simp only [dictUpd, this, if_false, Bool.false_eq_true]
    rw [ih k v hk.2]
    rfl

theorem dictUpd_snd_subset {α : Type} : ∀ (m : List (String × α)) (k : String) (v x : α),
    x ∈ (dictUpd m k v).map Prod.snd → x = v ∨ x ∈ m.map Prod.snd := by
  intro m
  induction m with
  | nil =>
    intro k v x hx
    simp [dictUpd] at hx
    exact Or.inl hx
  | cons p m ih =>
    intro k v x hx
    simp only [dictUpd] at hx
    split at hx
    · simp only [List.map_cons, List.mem_cons] at hx
      rcases hx with hx | hx
      · exact Or.inl hx
      · exact Or.inr (by simp [List.mem_cons_of_mem, hx])
    · simp only [List.map_cons, List.mem_cons] at hx
      rcases hx with hx | hx
      · exact Or.inr (by simp [hx])
      · rcases ih k v x hx with h | h
        · exact Or.inl h
        · exact Or.inr (by simp [h])

theorem dictUpd_fst_subset {α : Type} : ∀ (m : List (String × α)) (k : String) (v : α)
    (x : String), x ∈ (dictUpd m k v).map Prod.fst → x = k ∨ x ∈ m.map Prod.fst := by
  intro m
  induction m with
  | nil =>
    intro k v x hx
    simp [dictUpd] at hx
    exact Or.inl hx
  | cons p m ih =>
    intro k v x hx
    simp only [dictUpd] at hx
    split at hx
    · simp only [List.map_cons, List.mem_cons] at hx
      rcases hx with hx | hx
      · exact Or.inl hx
      · exact Or.inr (by simp [hx])
    · simp only [List.map_cons, List.mem_cons] at hx
      rcases hx with hx | hx
      · exact Or.inr (by simp [hx])
      · rcases ih k v x hx with h | h
        · exact Or.inl h
        · exact Or.inr (by simp [h])

theorem dictUpd_snd_nodup {α : Type} : ∀ (m : List (String × α)) (k : String) (v : α),
    (m.map Prod.snd).Nodup → v ∉ m.map Prod.snd →
    ((dictUpd m k v).map Prod.snd).Nodup := by
  intro m
  induction m with
  | nil => intro k v _ _; simp [dictUpd]
  | cons p m ih =>
    intro k v hnd hv
    simp only [List.map_cons, List.nodup_cons, List.mem_cons] at hnd hv
    push_neg at hv
    simp only [dictUpd]
    split
    · simp only [List.map_cons, List.nodup_cons]
      exact ⟨hv.2, hnd.2⟩
    · simp only [List.map_cons, List.nodup_cons]
      refine ⟨?_, ih k v hnd.2 hv.2⟩
      intro hmem
      rcases dictUpd_snd_subset m k v p.2 hmem with h | h
      · exact hv.1 h.symm
      · exact hnd.1 h

/-! ### De-duplication of raw column names -/

theorem contains_eq_true_iff (l : List String) (a : String) :
    l.contains a = true ↔ a ∈ l := by
  simp

theorem applyMask_sublist {α : Type} : ∀ (bs : List Bool) (l : List α),
    List.Sublist (applyMask bs l) l := by
  intro bs
  induction bs with
  | nil =>
    intro l
    cases l <;> simp [applyMask]
  | cons b bs ih =>
    intro l
    cases l with
    | nil => simp [applyMask]
    | cons x xs =>
      cases b with
      | true => exact List.Sublist.cons x (ih xs)
      | false => exact List.Sublist.cons₂ x (ih xs)

theorem mem_dedupeAux : ∀ (l seen : List String) (x : String),
    x ∈ applyMask (dupMask seen l) l ↔ (x ∈ l ∧ x ∉ seen) := by
  intro l
  induction l with
  | nil => intro seen x; simp [dupMask, applyMask]
  | cons c cs ih =>
    intro seen x
    simp only [dupMask]
    by_cases hc : c ∈ seen
    · have hcc : seen.contains c = true := (contains_eq_true_iff seen c).mpr hc
      rw [hcc]
      simp only [applyMask]
      rw [ih (c :: seen) x]
      constructor
      · rintro ⟨hx, hxs⟩
        simp only [List.mem_cons] at hxs
        push_neg at hxs
        exact ⟨List.mem_cons_of_mem c hx, hxs.2⟩
      · rintro ⟨hx, hxs⟩
        rcases List.mem_cons.mp hx with rfl | hx
        · exact absurd hc hxs
        · refine ⟨hx, ?_⟩
          simp only [List.mem_cons]
          push_neg
          exact ⟨fun h => hxs (h ▸ hc), hxs⟩
    · have hcc : seen.contains c = false := by
        rw [← Bool.not_eq_true]
        intro h
        exact hc ((contains_eq_true_iff seen c).mp h)
      rw [hcc]
      simp only [applyMask, List.mem_cons]
      rw [ih (c :: seen) x]
      constructor
      · rintro (rfl | ⟨hx, hxs⟩)
        · exact ⟨Or.inl rfl, hc⟩
        · simp only [List.mem_cons] at hxs
          push_neg at hxs
          exact ⟨Or.inr hx, hxs.2⟩
      · rintro ⟨rfl | hx, hxs⟩
        · exact Or.inl rfl
        · by_cases hxc : x = c
          · exact Or.inl hxc
          · refine Or.inr ⟨hx, ?_⟩
            simp only [List.mem_cons]
            push_neg
            exact ⟨hxc, hxs⟩

theorem dedupeAux_nodup : ∀ (l seen : List String),
    (applyMask (dupMask seen l) l).Nodup := by
  intro l
  induction l with
  | nil => intro seen; simp [dupMask, applyMask]
  | cons c cs ih =>
    intro seen
    simp only [dupMask]
    cases hc : seen.contains c with
    | true => simpa [applyMask] using ih (c :: seen)
    | false =>
      simp only [applyMask, List.nodup_cons]
      refine ⟨?_, ih (c :: seen)⟩
      intro hmem
      have := (mem_dedupeAux cs (c :: seen) c).mp hmem
      simp at this

theorem mem_dedupeFirst (l : List String) (x : String) :
    x ∈ dedupeFirst l ↔ x ∈ l := by
  rw [dedupeFirst, mem_dedupeAux]
  simp

theorem dedupeFirst_nodup (l : List String) : (dedupeFirst l).Nodup :=
  dedupeAux_nodup l []

theorem dedupeFirst_sublist (l : List String) : List.Sublist (dedupeFirst l) l :=
  applyMask_sublist _ l

/-! ### The confidence hard gate -/

theorem calcConfidence_no_item (m : List (String × String)) (sc : List (String × Nat))
    (pats : List (String × List String)) (df : DataFrame)
    (h : "item_name" ∉ m.map Prod.snd) : calcConfidence m sc pats df = Except.ok 0 := by
  simp only [calcConfidence]
  rw [if_neg]
  intro hmem
  exact h ((mem_dedupeFirst _ _).mp hmem)

/-! ### Invariants of the `_map_fields` column loop -/

theorem dictUpd_mem_subset {α : Type} : ∀ (m : List (String × α)) (k : String) (v : α)
    (p : String × α), p ∈ dictUpd m k v → p = (k, v) ∨ p ∈ m := by
  intro m
  induction m with
  | nil =>
    intro k v p hp
    simp [dictUpd] at hp
    exact Or.inl hp
  | cons q m ih =>
    intro k v p hp
    simp only [dictUpd] at hp
    split at hp
    · rcases List.mem_cons.mp hp with hp | hp
      · exact Or.inl hp
      · exact Or.inr (List.mem_cons_of_mem q hp)
    · rcases List.mem_cons.mp hp with hp | hp
      · exact Or.inr (by simp [hp])
      · rcases ih k v p hp with h | h
        · exact Or.inl h
        · exact Or.inr (List.mem_cons_of_mem q h)

theorem mapStep_cases (pats : List (String × List String)) (st : MapState) (c : String) :
    mapStep pats st c = st ∨
      ∃ f s, bestForColumn c pats st.used = (some f, s) ∧ f ∉ st.used ∧
        mapStep pats st c = ⟨dictUpd st.mapping c f, dictUpd st.scores f s, st.used ++ [f]⟩ := by
  rcases hb : bestForColumn c pats st.used with ⟨o, s⟩
  cases o with
  | none => exact Or.inl (by simp [mapStep, hb])
  | some f =>
    by_cases hf : f ∈ st.used
    · exact Or.inl (by simp [mapStep, hb, hf])
    · exact Or.inr ⟨f, s, rfl, hf, by simp [mapStep, hb, hf]⟩

theorem runMap_cons (pats : List (String × List String)) (c : String) (cs : List String)
    (st : MapState) : runMap pats (c :: cs) st = runMap pats cs (mapStep pats st c) := rfl

theorem mapStep_scores_ext (pats : List (String × List String)) (st : MapState)
    (c : String) (hk : scoresKeyed st) :
    scoresKeyed (mapStep pats st c) ∧
      ∃ ext, (mapStep pats st c).scores = st.scores ++ ext ∧
        (mapStep pats st c).used = st.used ++ ext.map Prod.fst := by
  rcases mapStep_cases pats st c with h | ⟨f, s, _, hf, h⟩
  · rw [h]
    exact ⟨hk, [], by simp, by simp⟩
  · have hfresh : f ∉ st.scores.map Prod.fst := by
      rw [hk]
      exact hf
    have happ := dictUpd_of_fresh st.scores f s hfresh
    rw [h]
    constructor
    · show (dictUpd st.scores f s).map Prod.fst = st.used ++ [f]
      rw [happ]
      simp [scoresKeyed] at hk
      simp [hk]
    · exact ⟨[(f, s)], by simp [happ], by simp⟩

theorem runMap_scores_ext (pats : List (String × List String)) :
    ∀ (cs : List String) (st : MapState), scoresKeyed st →
      scoresKeyed (runMap pats cs st) ∧
        ∃ ext, (runMap pats cs st).scores = st.scores ++ ext ∧
          (runMap pats cs st).used = st.used ++ ext.map Prod.fst := by
  intro cs
  induction cs with
  | nil =>
    intro st h
    exact ⟨h, [], by simp [runMap], by simp [runMap]⟩
  | cons c cs ih =>
    intro st h
    obtain ⟨h1, e1, he1, hu1⟩ := mapStep_scores_ext pats st c h
    obtain ⟨h2, e2, he2, hu2⟩ := ih (mapStep pats st c) h1
    rw [runMap_cons]
    refine ⟨h2, e1 ++ e2, ?_, ?_⟩
    · rw [he2, he1, List.append_assoc]
    · rw [hu2, hu1, List.append_assoc, List.map_append]

theorem mapStep_bounded (pats : List (String × List String)) (st : MapState)
    (c : String) (hb : scoresBounded st) : scoresBounded (mapStep pats st c) := by
  rcases mapStep_cases pats st c with h | ⟨f, s, hbest, _, h⟩
  · rw [h]; exact hb
  · rw [h]
    intro p hp
    rcases dictUpd_mem_subset st.scores f s p hp with rfl | hp
    · have := bestForColumn_assigned c pats st.used f s hbest
      exact ⟨this.2.1, this.2.2.1⟩
    · exact hb p hp

theorem runMap_bounded (pats : List (String × List String)) :
    ∀ (cs : List String) (st : MapState), scoresBounded st →
      scoresBounded (runMap pats cs st) := by
  intro cs
  induction cs with
  | nil => intro st h; exact h
  | cons c cs ih =>
    intro st h
    rw [runMap_cons]
    exact ih _ (mapStep_bounded pats st c h)

theorem mapStep_valuesOk (pats : List (String × List String)) (st : MapState)
    (c : String) (hv : valuesOk st) : valuesOk (mapStep pats st c) := by
  rcases mapStep_cases pats st c with h | ⟨f, s, _, hf, h⟩
  · rw [h]; exact hv
  · rw [h]
    have hnotv : f ∉ st.mapping.map Prod.snd := fun hmem => hf (hv.2 f hmem)
    constructor
    · exact dictUpd_snd_nodup st.mapping c f hv.1 hnotv
    · intro x hx
      rcases dictUpd_snd_subset st.mapping c f x hx with rfl | hx
      · simp
      · exact List.mem_append_left _ (hv.2 x hx)

theorem runMap_valuesOk (pats : List (String × List String)) :
    ∀ (cs : List String) (st : MapState), valuesOk st → valuesOk (runMap pats cs st) := by
  intro cs
  induction cs with
  | nil => intro st h; exact h
  | cons c cs ih =>
    intro st h
    rw [runMap_cons]
    exact ih _ (mapStep_valuesOk pats st c h)

theorem runMap_exact (pats : List (String × List String)) :
    ∀ (cs : List String) (st : MapState), cs.Nodup →
      (∀ c ∈ cs, c ∉ st.mapping.map Prod.fst) →
      st.mapping.map Prod.snd = st.used → scoresKeyed st →
      (runMap pats cs st).mapping.map Prod.snd = (runMap pats cs st).used ∧
        scoresKeyed (runMap pats cs st) := by
  intro cs
  induction cs with
  | nil => intro st _ _ hmv hk; exact ⟨hmv, hk⟩
  | cons c cs ih =>
    intro st hnd hkeys hmv hk
    rw [runMap_cons]
    rcases mapStep_cases pats st c with h | ⟨f, s, _, hf, h⟩
    · rw [h]
      exact ih st (List.Nodup.of_cons hnd) (fun c' hc' => hkeys c' (List.mem_cons_of_mem c hc'))
        hmv hk
    · have hcfresh : c ∉ st.mapping.map Prod.fst := hkeys c (List.mem_cons_self c cs)
      have hmapp := dictUpd_of_fresh st.mapping c f hcfresh
      have hsfresh : f ∉ st.scores.map Prod.fst := by rw [hk]; exact hf
      have hsapp := dictUpd_of_fresh st.scores f s hsfresh
      refine ih (mapStep pats st c) (List.Nodup.of_cons hnd) ?_ ?_ ?_
      · intro c' hc'
        rw [h]
        show c' ∉ (dictUpd st.mapping c f).map Prod.fst
        rw [hmapp]
        simp only [List.map_append, List.mem_append]
        rintro (hin | hin)
        · exact hkeys c' (List.mem_cons_of_mem c hc') hin
        · simp only [List.map_cons, List.map_nil, List.mem_singleton] at hin
          exact (List.nodup_cons.mp hnd).1 (hin ▸ hc')
      · rw [h]
        show (dictUpd st.mapping c f).map Prod.snd = st.used ++ [f]
        rw [hmapp]
        simp [hmv]
      · rw [h]
        show (dictUpd st.scores f s).map Prod.fst = st.used ++ [f]
        rw [hsapp]
        simp only [scoresKeyed] at hk
        simp [hk]

/-! ### Python `max(results, key=...)` -/

theorem pickBest_mem : ∀ (rs : List ParseResult) (r : ParseResult),
    pickBest r rs ∈ r :: rs := by
  intro rs
  induction rs with
  | nil => intro r; simp [pickBest]
  | cons x rs ih =>
    intro r
    have hstep : pickBest r (x :: rs)
        = pickBest (if confValue r < confValue x then x else r) rs := rfl
    rw [hstep]
    rcases List.mem_cons.mp (ih (if confValue r < confValue x then x else r)) with h | h
    · rw [h]
      split_ifs <;> simp
    · simp [h]

theorem pickBest_ge : ∀ (rs : List ParseResult) (r x : ParseResult),
    x ∈ r :: rs → confValue x ≤ confValue (pickBest r rs) := by
  intro rs
  induction rs with
  | nil =>
    intro r x hx
    simp at hx
    simp [pickBest, hx]
  | cons y rs ih =>
    intro r x hx
    have hstep : pickBest r (y :: rs)
        = pickBest (if confValue r < confValue y then y else r) rs := rfl
    rw [hstep]
    have hr' : confValue r ≤ confValue (if confValue r < confValue y then y else r) := by
      split_ifs with h
      · exact le_of_lt h
      · exact le_refl _
    have hy' : confValue y ≤ confValue (if confValue r < confValue y then y else r) := by
      split_ifs with h
      · exact le_refl _
      · exact le_of_not_lt h
    have hself := ih (if confValue r < confValue y then y else r) _
      (List.mem_cons_self _ _)
    rcases List.mem_cons.mp hx with rfl | hx
    · exact le_trans hr' hself
    · rcases List.mem_cons.mp hx with rfl | hx
      · exact le_trans hy' hself
      · exact ih _ x (List.mem_cons_of_mem _ hx)

/-! ### The canonical-header round trip -/

set_option maxRecDepth 2000000 in
theorem mapFields_invHeader :
    mapFields invHeader inventoryFieldPatterns = (invIdMapping, invFullScores) := by
  decide

theorem applyMask_id {α : Type} : ∀ (bs : List Bool) (r : List α),
    (∀ b ∈ bs, b = false) → r.length = bs.length → applyMask bs r = r := by
  intro bs
  induction bs with
  | nil =>
    intro r _ hlen
    cases r with
    | nil => rfl
    | cons x xs => simp at hlen
  | cons b bs ih =>
    intro r hb hlen
    cases r with
    | nil => simp at hlen
    | cons x xs =>
      have hbf : b = false := hb b (List.mem_cons_self b bs)
      subst hbf
      simp only [applyMask]
      rw [ih xs (fun b' hb' => hb b' (List.mem_cons_of_mem _ hb')) (by simpa using hlen)]

theorem nullFrac_zero_of_complete (rs : List (List Cell)) (f : String) (i : Nat)
    (hidx : invHeader.findIdx? (fun c => c == f) = some i)
    (h : ∀ r ∈ rs, (r.getD i none).isSome = true) :
    nullFrac ⟨invHeader, rs⟩ f = 0 := by
  have hcells : colCells ⟨invHeader, rs⟩ f = rs.map (fun r => r.getD i none) := by
    simp [colCells, hidx]
  have hfil : (colCells ⟨invHeader, rs⟩ f).filter (fun c => c.isNone) = [] := by
    rw [hcells, List.filter_eq_nil_iff]
    intro a ha
    rcases List.mem_map.mp ha with ⟨r, hr, rfl⟩
    have hs := h r hr
    cases hopt : r.getD i none with
    | none => rw [hopt] at hs; exact absurd hs (by simp)
    | some v => simp
  simp [nullFrac, hfil]

set_option maxRecDepth 1000000 in
theorem confidenceValue_invFull (rs : List (List Cell))
    (h0 : ∀ r ∈ rs, (r.getD 0 none).isSome = true)
    (h2 : ∀ r ∈ rs, (r.getD 2 none).isSome = true) :
    confidenceValue invIdMapping invFullScores inventoryFieldPatterns ⟨invHeader, rs⟩
      = 100 := by
  by_cases hre : rs = []
  · subst hre
    decide
  · have hn0 : nullFrac ⟨invHeader, rs⟩ "item_name" = 0 :=
      nullFrac_zero_of_complete rs "item_name" 0 (by decide) h0
    have hn2 : nullFrac ⟨invHeader, rs⟩ "current_stock" = 0 :=
      nullFrac_zero_of_complete rs "current_stock" 2 (by decide) h2
    have hdfe : ¬(dfEmpty (⟨invHeader, rs⟩ : DataFrame) = true) := by
      simp [dfEmpty, hre]
      decide
    have hded : dedupeFirst (invIdMapping.map Prod.snd) = invHeader := by decide
    simp only [confidenceValue]
    rw [hded, if_neg hdfe]
    have hfold :
        List.foldl
          (fun acc f =>
            if (⟨invHeader, rs⟩ : DataFrame).columns.contains f = true then
              acc * (1 - nullFrac ⟨invHeader, rs⟩ f * (1 / 2))
            else acc)
          (1 : ℚ) ["item_name", "current_stock"]
        = 1 * (1 - nullFrac ⟨invHeader, rs⟩ "item_name" * (1 / 2))
            * (1 - nullFrac ⟨invHeader, rs⟩ "current_stock" * (1 / 2)) := rfl
    rw [hfold, hn0, hn2]
    norm_num
    split_ifs <;> decide

theorem calcConfidence_invFull (rs : List (List Cell))
    (h0 : ∀ r ∈ rs, (r.getD 0 none).isSome = true)
    (h2 : ∀ r ∈ rs, (r.getD 2 none).isSome = true) :
    calcConfidence invIdMapping invFullScores inventoryFieldPatterns ⟨invHeader, rs⟩
      = Except.ok 100 := by
  have hded : dedupeFirst (invIdMapping.map Prod.snd) = invHeader := by decide
  have hmem : "item_name" ∈ invHeader := by decide
  have hcs : criticalSeries (⟨invHeader, rs⟩ : DataFrame) = false := rfl
  simp only [calcConfidence]
  rw [hded, if_pos hmem, hcs, Bool.and_false]
  rw [if_neg (by decide : ¬((false : Bool) = true))]
  exact congrArg Except.ok (confidenceValue_invFull rs h0 h2)

/-! ### The two outcomes of `_process_dataframe` -/

theorem processDataframe_eq_ok (df0 : DataFrame) (dt src : String) (q : ℚ)
    (h : calcConfidence (mapFields (processedColumns df0.columns) (patternsFor dt)).1
        (mapFields (processedColumns df0.columns) (patternsFor dt)).2
        (patternsFor dt) (processedFrame df0) = Except.ok q) :
    processDataframe df0 dt src = processOk df0 dt src q := by
  simp only [processDataframe]
  rw [h]

theorem processDataframe_eq_err (df0 : DataFrame) (dt src : String) (e : String)
    (h : calcConfidence (mapFields (processedColumns df0.columns) (patternsFor dt)).1
        (mapFields (processedColumns df0.columns) (patternsFor dt)).2
        (patternsFor dt) (processedFrame df0) = Except.error e) :
    processDataframe df0 dt src = mkFailure ("Failed to process extracted data: " ++ e) := by
  simp only [processDataframe]
  rw [h]

end Lemmas

section Claims

/-- C2: for every mapping, per-field score assignment, dictionary and
table, if the mandatory field `item_name` is absent from the mapped
canonical fields, the confidence returned by `_calculate_confidence` is
exactly 0, regardless of all other inputs. -/
theorem c2_mandatory_gate (mapping : List (String × String))
    (mappingScores : List (String × Nat)) (pats : List (String × List String))
    (df : DataFrame) (h : "item_name" ∉ mapping.map Prod.snd) :
    calcConfidence mapping mappingScores pats df = Except.ok 0 :=
  calcConfidence_no_item mapping mappingScores pats df h

theorem c2_mandatory_gate_witness :
    "item_name" ∉ ([("category", "category")] : List (String × String)).map Prod.snd ∧
      calcConfidence [("category", "category")] [("category", 100)]
        inventoryFieldPatterns dfNoItem = Except.ok 0 :=
  ⟨by decide, c2_mandatory_gate [("category", "category")] [("category", 100)]
    inventoryFieldPatterns dfNoItem (by decide)⟩

/-- C3 counterexample: the claim says every later column competing for an
already-claimed field "is left unmapped".  With columns
`["stock", "stock_cost"]`, the first column claims `current_stock`; the
later column `"stock_cost"` also competes for `current_stock` (its score
for that field is 100 ≥ 70), yet it is *not* left unmapped — `_map_fields`
assigns it to `cost_per_unit`. -/
theorem c3_counterexample :
    (mapFields ["stock", "stock_cost"] inventoryFieldPatterns).1
        = [("stock", "current_stock"), ("stock_cost", "cost_per_unit")] ∧
      fieldScore "stock_cost" (lookupD inventoryFieldPatterns "current_stock" []) = 100 := by
  constructor
  · decide
  · decide

/-- C3 (amended): field assignment is greedy and column-major in original
column order — the claims (`used_fields` and `mapping_scores`) made while
processing a prefix of the columns are final and are only extended by
later columns; a canonical field appears at most once as a mapping
target; and in the spec's own example `["stock", "current_stock"]` the
earlier column claims `current_stock` and the later column, competing for
the same field, receives no field at all (though in general a later
competing column may still be mapped to a *different* field). -/
theorem c3_greedy_column_major :
    (∀ (pats : List (String × List String)) (cs1 cs2 : List String),
        ∃ ext, (runMap pats (cs1 ++ cs2) initState).scores
            = (runMap pats cs1 initState).scores ++ ext ∧
          (runMap pats (cs1 ++ cs2) initState).used
            = (runMap pats cs1 initState).used ++ ext.map Prod.fst) ∧
    (∀ (cols : List String) (pats : List (String × List String)),
        ((mapFields cols pats).1.map Prod.snd).Nodup) ∧
    mapFields ["stock", "current_stock"] inventoryFieldPatterns
      = ([("stock", "current_stock")], [("current_stock", 100)]) := by
  refine ⟨?_, ?_, by decide⟩
  · intro pats cs1 cs2
    have h1 := runMap_scores_ext pats cs1 initState rfl
    obtain ⟨e, he, hu⟩ := (runMap_scores_ext pats cs2 (runMap pats cs1 initState) h1.1).2
    have happ : runMap pats (cs1 ++ cs2) initState
        = runMap pats cs2 (runMap pats cs1 initState) := by
      simp [runMap, List.foldl_append]
    exact ⟨e, by rw [happ, he], by rw [happ, hu]⟩
  · intro cols pats
    exact (runMap_valuesOk pats cols initState ⟨by simp [initState], by simp [initState]⟩).1

/-- C4: for every (column, still-unused canonical field) pair, the match
score is 100 whenever some synonym token is a literal substring of the
cleaned column name and otherwise is the maximum fuzzy-similarity ratio
over the field's synonyms; and a field is assigned to a column only if
this best score is at least 70, it is the highest-scoring still-unused
field for the column, and the field has not been claimed by an earlier
column (`assignedSpec`). -/
theorem c4_match_scoring :
    (∀ (c : String) (pl : List String),
        ((∃ p ∈ pl, hasSub p.data c.data = true) → fieldScore c pl = 100) ∧
        ((∀ p ∈ pl, hasSub p.data c.data = false) → fieldScore c pl = maxFuzz c pl)) ∧
    (∀ (c : String) (pats : List (String × List String)) (used : List String)
        (F : String) (s : Nat),
        bestForColumn c pats used = (some F, s) → assignedSpec c pats used F s) :=
  ⟨fun c pl => ⟨fieldScore_of_sub c pl, fieldScore_of_no_sub c pl⟩,
   fun c pats used F s h => bestForColumn_assigned c pats used F s h⟩

theorem c4_match_scoring_witness :
    bestForColumn "stock" inventoryFieldPatterns [] = (some "current_stock", 100) ∧
      assignedSpec "stock" inventoryFieldPatterns [] "current_stock" 100 :=
  ⟨by decide,
   c4_match_scoring.2 "stock" inventoryFieldPatterns [] "current_stock" 100 (by decide)⟩

/-- C7: when the optional extraction dependency for page-structured or
word-processor documents is unavailable, the parser returns a controlled
failure (`success = false`) with an explanatory message, for every input;
being total functions, the embedded parsers raise nothing. -/
theorem c7_missing_capability (m1 m2 m3 : Except String (List DataFrame))
    (tables : List DataFrame) (dt dt' : String) :
    parsePdf false m1 m2 m3 dt = mkFailure "PDF parsing libraries not available" ∧
    (parsePdf false m1 m2 m3 dt).success = false ∧
    parseDocx false tables dt' = mkFailure "Word document parsing not available" ∧
    (parseDocx false tables dt').success = false :=
  ⟨rfl, rfl, rfl, rfl⟩

/-- C8: the accuracy assessment assigns exactly one of four
non-overlapping bands by descending threshold — excellent (≥ 95),
good (≥ 85), fair (≥ 70), poor (< 70) — and `needs_human_review` is true
iff the band is fair or poor. -/
theorem c8_confidence_bands (conf : ℚ) (fm : List (String × String))
    (ms : List (String × Nat)) (df : DataFrame) :
    (((generateAccuracyAssessment conf fm ms df).confidenceLevel = "excellent" ↔ 95 ≤ conf) ∧
     ((generateAccuracyAssessment conf fm ms df).confidenceLevel = "good" ↔
        85 ≤ conf ∧ conf < 95) ∧
     ((generateAccuracyAssessment conf fm ms df).confidenceLevel = "fair" ↔
        70 ≤ conf ∧ conf < 85) ∧
     ((generateAccuracyAssessment conf fm ms df).confidenceLevel = "poor" ↔ conf < 70)) ∧
    ((generateAccuracyAssessment conf fm ms df).needsHumanReview = true ↔
      ((generateAccuracyAssessment conf fm ms df).confidenceLevel = "fair" ∨
        (generateAccuracyAssessment conf fm ms df).confidenceLevel = "poor")) := by
  have hl : (generateAccuracyAssessment conf fm ms df).confidenceLevel
      = (confidenceBand conf).level := rfl
  have hr : (generateAccuracyAssessment conf fm ms df).needsHumanReview
      = (confidenceBand conf).needsReview := rfl
  rw [hl, hr]
  unfold confidenceBand
  split_ifs with h1 h2 h3
  · refine ⟨⟨⟨fun _ => h1, fun _ => rfl⟩, ?_, ?_, ?_⟩, ?_⟩
    · exact ⟨fun hh => absurd hh (by decide), fun hh => absurd h1 (not_le.mpr hh.2)⟩
    · exact ⟨fun hh => absurd hh (by decide),
        fun hh => absurd h1 (not_le.mpr (lt_of_lt_of_le hh.2 (by norm_num)))⟩
    · exact ⟨fun hh => absurd hh (by decide),
        fun hh => absurd h1 (not_le.mpr (lt_of_lt_of_le hh (by norm_num)))⟩
    · refine ⟨fun hh => absurd hh (by decide), fun hh => ?_⟩
      rcases hh with hh | hh <;> exact absurd hh (by decide)
  · refine ⟨⟨?_, ⟨fun _ => ⟨h2, not_le.mp h1⟩, fun _ => rfl⟩, ?_, ?_⟩, ?_⟩
    · exact ⟨fun hh => absurd hh (by decide), fun hh => absurd hh h1⟩
    · exact ⟨fun hh => absurd hh (by decide), fun hh => absurd h2 (not_le.mpr hh.2)⟩
    · exact ⟨fun hh => absurd hh (by decide),
        fun hh => absurd h2 (not_le.mpr (lt_of_lt_of_le hh (by norm_num)))⟩
    · refine ⟨fun hh => absurd hh (by decide), fun hh => ?_⟩
      rcases hh with hh | hh <;> exact absurd hh (by decide)
  · refine ⟨⟨?_, ?_, ⟨fun _ => ⟨h3, not_le.mp h2⟩, fun _ => rfl⟩, ?_⟩, ?_⟩
    · exact ⟨fun hh => absurd hh (by decide), fun hh => absurd hh h1⟩
    · exact ⟨fun hh => absurd hh (by decide), fun hh => absurd hh.1 h2⟩
    · exact ⟨fun hh => absurd hh (by decide), fun hh => absurd h3 (not_le.mpr hh)⟩
    · exact ⟨fun _ => Or.inl rfl, fun _ => rfl⟩
  · refine ⟨⟨?_, ?_, ?_, ⟨fun _ => not_le.mp h3, fun _ => rfl⟩⟩, ?_⟩
    · exact ⟨fun hh => absurd hh (by decide),
        fun hh => absurd (le_trans (by norm_num) hh) h3⟩
    · exact ⟨fun hh => absurd hh (by decide),
        fun hh => absurd (le_trans (by norm_num) hh.1) h3⟩
    · exact ⟨fun hh => absurd hh (by decide), fun hh => absurd hh.1 h3⟩
    · exact ⟨fun _ => Or.inr rfl, fun _ => rfl⟩

/-- C10 counterexample: the claim says the per-field score keys are
exactly the mapping's target fields.  With the duplicate column list
`["stock", "stock"]` (reachable, because raw-name de-duplication precedes
cleaning), the second occurrence overwrites the dict entry
`mapping["stock"]` with `min_stock_level`, so `current_stock` keeps a
recorded score without remaining a mapping target. -/
theorem c10_counterexample :
    (mapFields ["stock", "stock"] inventoryFieldPatterns).1
        = [("stock", "min_stock_level")] ∧
      (mapFields ["stock", "stock"] inventoryFieldPatterns).2
        = [("current_stock", 100), ("min_stock_level", 71)] ∧
      ¬((mapFields ["stock", "stock"] inventoryFieldPatterns).2.map Prod.fst
          = (mapFields ["stock", "stock"] inventoryFieldPatterns).1.map Prod.snd) := by
  refine ⟨by decide, by decide, by decide⟩

/-- C10 (amended): every score `_map_fields` records lies in `[70, 100]`,
for every column list and dictionary; and when the column names are
pairwise distinct (so that no dict entry is overwritten) the score keys
are exactly the canonical fields appearing as mapping targets, in
order. -/
theorem c10_scores (cols : List String) (pats : List (String × List String)) :
    (∀ p ∈ (mapFields cols pats).2, 70 ≤ p.2 ∧ p.2 ≤ 100) ∧
    (cols.Nodup →
      (mapFields cols pats).2.map Prod.fst = (mapFields cols pats).1.map Prod.snd) := by
  constructor
  · intro p hp
    exact runMap_bounded pats cols initState (by intro q hq; simp [initState] at hq) p hp
  · intro hnd
    have h := runMap_exact pats cols initState hnd (by intro c hc; simp [initState]) rfl rfl
    exact h.2.trans h.1.symm

theorem c10_scores_witness :
    (["item", "cost"] : List String).Nodup ∧
      (mapFields ["item", "cost"] inventoryFieldPatterns).2.map Prod.fst
        = (mapFields ["item", "cost"] inventoryFieldPatterns).1.map Prod.snd :=
  ⟨by decide, (c10_scores ["item", "cost"] inventoryFieldPatterns).2 (by decide)⟩

/-- C1 counterexample: the claim says that when no column matches any
synonym of `item_name`, the parse returns `success == false`.  On the
frame with columns `["category", "cost"]` — none of which maps to
`item_name` — `_process_dataframe` nevertheless returns
`success == true`. -/
theorem c1_counterexample :
    (processDataframe dfNoItem "inventory" "CSV").metadata.map Metadata.fieldMapping
        = some [("category", "category"), ("cost", "cost_per_unit")] ∧
      "item_name" ∉
        ([("category", "category"), ("cost", "cost_per_unit")] :
          List (String × String)).map Prod.snd ∧
      (processDataframe dfNoItem "inventory" "CSV").success = true :=
  ⟨by decide, by decide, rfl⟩

/-- C1 (amended): when no column is mapped to the mandatory field
`item_name`, `_process_dataframe` still returns `success == true`, but
with confidence exactly 0, and the metadata still reports the (cleaned)
original columns for diagnostics. -/
theorem c1_schema_incomplete (df : DataFrame) (dataType source : String)
    (h : "item_name" ∉
      (mapFields (processedColumns df.columns) (patternsFor dataType)).1.map Prod.snd) :
    (processDataframe df dataType source).success = true ∧
    (processDataframe df dataType source).metadata.map Metadata.confidence = some 0 ∧
    (processDataframe df dataType source).metadata.map Metadata.originalColumns
      = some (processedColumns df.columns) := by
  have hc : calcConfidence
      (mapFields (processedColumns df.columns) (patternsFor dataType)).1
      (mapFields (processedColumns df.columns) (patternsFor dataType)).2
      (patternsFor dataType) (processedFrame df) = Except.ok 0 :=
    calcConfidence_no_item _ _ _ _ h
  rw [processDataframe_eq_ok df dataType source 0 hc]
  exact ⟨rfl, rfl, rfl⟩

theorem c1_schema_incomplete_witness :
    ("item_name" ∉
        (mapFields (processedColumns dfNoItem.columns) (patternsFor "inventory")).1.map
          Prod.snd) ∧
      ((processDataframe dfNoItem "inventory" "CSV").success = true ∧
        (processDataframe dfNoItem "inventory" "CSV").metadata.map Metadata.confidence
          = some 0 ∧
        (processDataframe dfNoItem "inventory" "CSV").metadata.map Metadata.originalColumns
          = some (processedColumns dfNoItem.columns)) :=
  ⟨by decide, c1_schema_incomplete dfNoItem "inventory" "CSV" (by decide)⟩

/-- C5 counterexample: the claim says duplicate column names *after
cleaning* are de-duplicated keeping the first occurrence.  The raw
columns `["Item Name", "item_name"]` are distinct, so both survive the
raw-name de-duplication and then clean to the same `"item_name"` — the
processed column list keeps the duplicate, and because the duplicated
label is the critical field `item_name`, `df[field]` in
`_calculate_confidence` yields a pandas `DataFrame`/`Series` and the
computation raises, so `_process_dataframe` returns `success == false`
with empty metadata instead of reporting the columns. -/
theorem c5_counterexample :
    processedColumns ["Item Name", "item_name"] = ["item_name", "item_name"] ∧
      ¬(processedColumns ["Item Name", "item_name"]).Nodup ∧
      (processDataframe dfDupClean "inventory" "CSV").success = false ∧
      (processDataframe dfDupClean "inventory" "CSV").metadata = none :=
  ⟨by decide, by decide, rfl, rfl⟩

/-- C5 (amended): column names are cleaned by trimming whitespace,
lower-casing, and replacing spaces with underscores, but de-duplication
(keeping the first occurrence) is performed on the *raw* names before
cleaning; duplicates arising only after cleaning are kept, and a kept
duplicate of a critical label makes `_calculate_confidence` raise, which
the `except` converts into `success == false` with empty metadata.  The
de-duplicated raw list is duplicate-free and an order-preserving
selection of the original columns, and whenever the parse succeeds its
metadata reports exactly the cleaned de-duplicated list. -/
theorem c5_cleaning (df : DataFrame) (dataType source : String) :
    (dedupeFirst df.columns).Nodup ∧
      List.Sublist (dedupeFirst df.columns) df.columns ∧
      ((processDataframe df dataType source).success = true →
        (processDataframe df dataType source).metadata.map Metadata.originalColumns
          = some ((dedupeFirst df.columns).map cleanName)) := by
  refine ⟨dedupeFirst_nodup df.columns, dedupeFirst_sublist df.columns, ?_⟩
  intro hs
  cases hcc : calcConfidence
      (mapFields (processedColumns df.columns) (patternsFor dataType)).1
      (mapFields (processedColumns df.columns) (patternsFor dataType)).2
      (patternsFor dataType) (processedFrame df) with
  | error e =>
    rw [processDataframe_eq_err df dataType source e hcc] at hs
    simp [mkFailure] at hs
  | ok q =>
    rw [processDataframe_eq_ok df dataType source q hcc]
    rfl

theorem c5_cleaning_witness :
    (processDataframe dfSingle "inventory" "CSV").success = true ∧
      (processDataframe dfSingle "inventory" "CSV").metadata.map Metadata.originalColumns
        = some ((dedupeFirst dfSingle.columns).map cleanName) :=
  ⟨by decide, (c5_cleaning dfSingle "inventory" "CSV").2.2 (by decide)⟩

/-- C6: in `_parse_pdf`, each extraction method is tried in isolation
(a method raising behaves exactly as a method finding nothing), the full
mapping/scoring pipeline is run per extracted table, and among the
successful per-method results the (first) one with the highest confidence
is returned; when no method yields a usable table, a controlled failure
is returned. -/
theorem c6_pdf_orchestration :
    (∀ (dt e : String) (m2 m3 : Except String (List DataFrame)),
        parsePdf true (Except.error e) m2 m3 dt = parsePdf true (Except.ok []) m2 m3 dt) ∧
    (∀ (dt e : String) (m1 m3 : Except String (List DataFrame)),
        parsePdf true m1 (Except.error e) m3 dt = parsePdf true m1 (Except.ok []) m3 dt) ∧
    (∀ (dt e : String) (m1 m2 : Except String (List DataFrame)),
        parsePdf true m1 m2 (Except.error e) dt = parsePdf true m1 m2 (Except.ok []) dt) ∧
    (∀ (dt : String) (m1 m2 m3 : Except String (List DataFrame)),
        (pdfResults m1 m2 m3 dt ≠ [] →
          parsePdf true m1 m2 m3 dt ∈ pdfResults m1 m2 m3 dt ∧
            ∀ r ∈ pdfResults m1 m2 m3 dt,
              confValue r ≤ confValue (parsePdf true m1 m2 m3 dt)) ∧
        (pdfResults m1 m2 m3 dt = [] →
          parsePdf true m1 m2 m3 dt = mkFailure "No tables could be extracted from PDF")) ∧
    (∀ (dt : String) (m1 m2 m3 : Except String (List DataFrame)),
        ∀ r ∈ pdfResults m1 m2 m3 dt,
          r.success = true ∧ ∃ d s, r = processDataframe d dt s) := by
  refine ⟨fun _ _ _ _ => rfl, fun _ _ _ _ => rfl, fun _ _ _ _ => rfl, ?_, ?_⟩
  · intro dt m1 m2 m3
    constructor
    · intro hne
      rcases hres : pdfResults m1 m2 m3 dt with _ | ⟨r, rs⟩
      · exact absurd hres hne
      · have hp : parsePdf true m1 m2 m3 dt = pickBest r rs := by
          simp [parsePdf, hres]
        rw [hp]
        exact ⟨pickBest_mem rs r, fun x hx => pickBest_ge rs r x hx⟩
    · intro hnil
      simp [parsePdf, hnil]
  · intro dt m1 m2 m3 r hr
    simp only [pdfResults, List.mem_append] at hr
    rcases hr with (hr | hr) | hr
    · cases m1 with
      | error e => simp [methodResults] at hr
      | ok ts =>
        simp only [methodResults, plumberCandidates] at hr
        split at hr
        · simp at hr
        · split at hr
          · rename_i hsucc
            simp only [List.mem_singleton] at hr
            subst hr
            exact ⟨hsucc, ⟨concatDfs (ts.filter (fun t => 0 < t.rows.length)),
              "PDF (pdfplumber)", rfl⟩⟩
          · simp at hr
    · cases m2 with
      | error e => simp [methodResults] at hr
      | ok ts =>
        simp only [methodResults, tabulaCandidates] at hr
        rw [List.mem_filter] at hr
        rcases hr with ⟨hmem, hsucc⟩
        rcases List.mem_map.mp hmem with ⟨d, _, rfl⟩
        exact ⟨by simpa using hsucc, ⟨d, "PDF (tabula)", rfl⟩⟩
    · cases m3 with
      | error e => simp [methodResults] at hr
      | ok ts =>
        simp only [methodResults, camelotCandidates] at hr
        rw [List.mem_filter] at hr
        rcases hr with ⟨hmem, hsucc⟩
        rcases List.mem_map.mp hmem with ⟨d, _, rfl⟩
        exact ⟨by simpa using hsucc, ⟨d, "PDF (camelot)", rfl⟩⟩

theorem c6_pdf_orchestration_witness :
    pdfResults (Except.ok [dfPdfSample]) (Except.error "boom") (Except.ok [])
        "inventory" ≠ [] ∧
      (parsePdf true (Except.ok [dfPdfSample]) (Except.error "boom") (Except.ok [])
            "inventory"
          ∈ pdfResults (Except.ok [dfPdfSample]) (Except.error "boom") (Except.ok [])
              "inventory" ∧
        ∀ r ∈ pdfResults (Except.ok [dfPdfSample]) (Except.error "boom") (Except.ok [])
            "inventory",
          confValue r ≤ confValue (parsePdf true (Except.ok [dfPdfSample])
            (Except.error "boom") (Except.ok []) "inventory")) :=
  ⟨by decide,
   (c6_pdf_orchestration.2.2.2.1 "inventory" (Except.ok [dfPdfSample])
      (Except.error "boom") (Except.ok [])).1 (by decide)⟩

/-- C9 counterexample: the claim says a table whose header uses the exact
canonical field names reaches the excellent band (confidence ≥ 95).
`dfRoundTripNull` has exactly the canonical inventory header, and every
column still maps at 100 points, but one missing `current_stock` value
halves the data-completeness factor and the parse ends at confidence 58,
far below the excellent band. -/
theorem c9_counterexample :
    dfRoundTripNull.columns = invHeader ∧
      mapFields invHeader inventoryFieldPatterns = (invIdMapping, invFullScores) ∧
      (processDataframe dfRoundTripNull "inventory" "CSV").metadata.map
          Metadata.confidence = some 58 ∧
      ¬(95 ≤ (58 : ℚ)) :=
  ⟨rfl, mapFields_invHeader, by decide, by norm_num⟩

/-- C9 (amended): a table whose header row lists the canonical inventory
field names in dictionary order, whose rows have the header's width, and
whose `item_name` and `current_stock` columns contain no missing values,
maps every column to itself with a 100-point exact match and parses with
confidence exactly 100, reaching the excellent band. -/
theorem c9_round_trip (rows : List (List Cell)) (source : String)
    (hlen : ∀ r ∈ rows, r.length = 8)
    (hcrit : ∀ r ∈ rows, ¬(r.all (fun c => c.isNone) = true) →
      (r.getD 0 none).isSome = true ∧ (r.getD 2 none).isSome = true) :
    mapFields invHeader inventoryFieldPatterns = (invIdMapping, invFullScores) ∧
    (processDataframe ⟨invHeader, rows⟩ "inventory" source).metadata.map
        Metadata.fieldMapping = some invIdMapping ∧
    (processDataframe ⟨invHeader, rows⟩ "inventory" source).metadata.map
        Metadata.confidence = some 100 := by
  have hpat : patternsFor "inventory" = inventoryFieldPatterns := rfl
  have hcols : processedColumns invHeader = invHeader := by decide
  have hmaskF : ∀ b ∈ dupMask [] invHeader, b = false := by decide
  have hmaskL : (dupMask [] invHeader).length = 8 := by decide
  have hrows : processedRows ⟨invHeader, rows⟩
      = rows.filter (fun r => ¬(r.all (fun c => c.isNone))) := by
    show (rows.filter (fun r => ¬(r.all (fun c => c.isNone)))).map
        (applyMask (dupMask [] invHeader))
      = rows.filter (fun r => ¬(r.all (fun c => c.isNone)))
    have hid : ∀ r ∈ rows.filter (fun r => ¬(r.all (fun c => c.isNone))),
        applyMask (dupMask [] invHeader) r = r := by
      intro r hr
      exact applyMask_id _ r hmaskF
        ((hlen r (List.mem_of_mem_filter hr)).trans hmaskL.symm)
    calc (rows.filter (fun r => ¬(r.all (fun c => c.isNone)))).map
          (applyMask (dupMask [] invHeader))
        = (rows.filter (fun r => ¬(r.all (fun c => c.isNone)))).map id :=
          List.map_congr_left (fun r hr => (hid r hr).trans rfl)
      _ = rows.filter (fun r => ¬(r.all (fun c => c.isNone))) := List.map_id _
  have hframe : processedFrame (⟨invHeader, rows⟩ : DataFrame)
      = ⟨invHeader, rows.filter (fun r => ¬(r.all (fun c => c.isNone)))⟩ := by
    show (⟨processedColumns invHeader, processedRows ⟨invHeader, rows⟩⟩ : DataFrame) = _
    rw [hcols, hrows]
  have h0 : ∀ r ∈ rows.filter (fun r => ¬(r.all (fun c => c.isNone))),
      (r.getD 0 none).isSome = true := by
    intro r hr
    obtain ⟨hmem, hpred⟩ := List.mem_filter.mp hr
    exact (hcrit r hmem (of_decide_eq_true hpred)).1
  have h2 : ∀ r ∈ rows.filter (fun r => ¬(r.all (fun c => c.isNone))),
      (r.getD 2 none).isSome = true := by
    intro r hr
    obtain ⟨hmem, hpred⟩ := List.mem_filter.mp hr
    exact (hcrit r hmem (of_decide_eq_true hpred)).2
  have hc : calcConfidence
      (mapFields (processedColumns invHeader) (patternsFor "inventory")).1
      (mapFields (processedColumns invHeader) (patternsFor "inventory")).2
      (patternsFor "inventory") (processedFrame ⟨invHeader, rows⟩) = Except.ok 100 := by
    rw [hpat, hcols, mapFields_invHeader, hframe]
    exact calcConfidence_invFull _ h0 h2
  have hpd : processDataframe ⟨invHeader, rows⟩ "inventory" source
      = processOk ⟨invHeader, rows⟩ "inventory" source 100 :=
    processDataframe_eq_ok ⟨invHeader, rows⟩ "inventory" source 100 hc
  have e1 : (processOk (⟨invHeader, rows⟩ : DataFrame) "inventory" source 100).metadata.map
      Metadata.fieldMapping
      = some (mapFields (processedColumns invHeader) (patternsFor "inventory")).1 := rfl
  refine ⟨mapFields_invHeader, ?_, ?_⟩
  · rw [hpd, e1, hpat, hcols, mapFields_invHeader]
  · rw [hpd]
    exact rfl

theorem c9_round_trip_witness :
    (∀ r ∈ dfRoundTrip.rows, r.length = 8) ∧
      (∀ r ∈ dfRoundTrip.rows, ¬(r.all (fun c => c.isNone) = true) →
        (r.getD 0 none).isSome = true ∧ (r.getD 2 none).isSome = true) ∧
      (processDataframe dfRoundTrip "inventory" "CSV").metadata.map Metadata.confidence
        = some 100 :=
  ⟨by decide, by decide, (c9_round_trip dfRoundTrip.rows "CSV" (by decide) (by decide)).2.2⟩

end Claims

end MediTrack
